import Mathlib

/-!
# Verification of the RCP socket core (RemoteControlProtocol)

A shallow embedding of the RCP protocol core declared in
`Cpp/RemoteControlProtocol/src/RCPSocket.h` and of the
`random_access_queue` container from `random_access_queue.h`.

The repository sources contain the class declarations and the full
`random_access_queue` template, but not the translation unit that defines the
member functions of `RcpSocket`.  Where a definition below embeds behaviour
whose C++ definition is absent from the sources, its doc comment starts with
`Modelled from the spec:` and the definition follows the specification's words
(header format, delivery-queue rules, retransmission rules, datagram
rejection, sequence numbering, cancellation tickets).  Everything else is
translated directly from the headers.
-/

namespace RcpSocket

/-- `RcpSocket::RcpHeader` (RCPSocket.h, lines 52–59): three `uint32_t`
fields.  Fields are modelled as `Nat`; where 32-bit width matters the
theorems carry explicit `< 2^32` bounds or `% 2^32` reductions. -/
structure RcpHeader where
  sequenceNumber : Nat
  batchNumber : Nat
  flags : Nat
deriving Repr, DecidableEq

/-- `RcpSocket::eFlags` (RCPSocket.h, lines 61–68): `SYN = 1`. -/
def SYN : Nat := 1
/-- `eFlags`: `ACK = 2`. -/
def ACK : Nat := 2
/-- `eFlags`: `FIN = 4`. -/
def FIN : Nat := 4
/-- `eFlags`: `KEP = 8`. -/
def KEP : Nat := 8
/-- `eFlags`: `REL = 16`. -/
def REL : Nat := 16
/-- `eFlags`: `CANCEL = 1u << 31`, the internal wake-up flag. -/
def CANCEL : Nat := 2 ^ 31

/-- The five flags that may appear on the wire (all `eFlags` members except
the internal `CANCEL`). -/
def wireFlags : List Nat := [SYN, ACK, FIN, KEP, REL]

/-- The flag combinations a datagram transmitted to the peer may carry,
per the spec (§6): the control combinations SYN, SYN|ACK, ACK, FIN,
FIN|ACK, KEP and the data combinations 0 (unreliable) and REL (reliable). -/
def allowedCombos : List Nat :=
  [SYN, SYN ||| ACK, ACK, FIN, FIN ||| ACK, KEP, 0, REL]

/-- A flags value is accepted by the engine exactly when it is one of the
recognized control or data combinations of the spec (§6). -/
def allowedFlags (f : Nat) : Bool := f ∈ allowedCombos

/-- Big-endian byte decomposition of a 32-bit word (most significant byte
first), as the spec fixes for each header field. -/
def u32be (n : Nat) : List Nat :=
  [n / 16777216 % 256, n / 65536 % 256, n / 256 % 256, n % 256]

/-- Recompose a 32-bit word from four big-endian bytes. -/
def beDecode (b0 b1 b2 b3 : Nat) : Nat :=
  b0 * 16777216 + b1 * 65536 + b2 * 256 + b3

/-- Modelled from the spec: `RcpHeader::serialize` is declared in
RCPSocket.h line 56 but its definition is not in the sources.  The spec
fixes the wire format: 12 bytes, the fields `sequenceNumber`,
`batchNumber`, `flags` in order, each big-endian. -/
def serialize (h : RcpHeader) : List Nat :=
  u32be h.sequenceNumber ++ u32be h.batchNumber ++ u32be h.flags

/-- Modelled from the spec: `RcpHeader::deserialize` is declared in
RCPSocket.h line 57 but its definition is not in the sources.  It parses
the first 12 bytes as three big-endian `u32` fields; it makes no policy
decision itself (rejection of short or ill-flagged datagrams is the
engine's `decodeDatagram`, below), so a short input yields the zero
header here. -/
def deserialize (data : List Nat) : RcpHeader :=
  match data with
  | b0 :: b1 :: b2 :: b3 :: b4 :: b5 :: b6 :: b7 :: b8 :: b9 :: b10 :: b11 :: _ =>
    ⟨beDecode b0 b1 b2 b3, beDecode b4 b5 b6 b7, beDecode b8 b9 b10 b11⟩
  | _ => ⟨0, 0, 0⟩

/-! ## The reserved-slot delivery queue and the receive path

Modelled from the spec (§3 delivery queue, §4.2, §4.6): the engine's
`recvQueue` / `recvReserved` state and the operations the I/O thread and
`receive` perform on it.  The C++ definitions live in the missing
translation unit; RCPSocket.h declares the containers (lines 149–159). -/

/-- A delivery-queue slot: either a reserved placeholder for a reliable
batch whose payload has not arrived, or a committed packet
(payload, reliable flag, batch number; unreliable packets carry batch 0). -/
inductive Slot
  | reserved (batch : Nat)
  | committed (payload : List Nat) (reliable : Bool) (batch : Nat)
deriving Repr, DecidableEq

/-- The batch numbers of the reliable slots (reserved or committed
reliable) of a queue, in queue order. -/
def relKeys (q : List Slot) : List Nat :=
  q.filterMap fun sl =>
    match sl with
    | .reserved b => some b
    | .committed _ true b => some b
    | .committed _ false _ => none

/-- The payloads of the committed unreliable slots of a queue, in queue
order. -/
def unrelPayloads (q : List Slot) : List (List Nat) :=
  q.filterMap fun sl =>
    match sl with
    | .committed p false _ => some p
    | _ => none

/-- The receiver-side session state the delivery queue touches:
the queue itself, `remoteBatchNumReserved` (RCPSocket.h line 159:
reliable packets with this or a smaller batch number have space reserved
or have been committed), and ghost logs of what `receive` has returned
and which unreliable payloads the engine has accepted, in order. -/
structure RxState where
  queue : List Slot
  remoteBatchNumReserved : Nat
  deliveredRel : List Nat
  deliveredUnrel : List (List Nat)
  arrivedUnrel : List (List Nat)
deriving Repr, DecidableEq

/-- The receiver state at session establishment: everything empty. -/
def rxInit : RxState := ⟨[], 0, [], [], []⟩

/-- Modelled from the spec (§4.6): a plain data datagram (no REL, no
control flag) pushes a committed unreliable slot to the back of the
queue. -/
def pushUnreliable (s : RxState) (p : List Nat) : RxState :=
  { s with
    queue := s.queue ++ [Slot.committed p false 0]
    arrivedUnrel := s.arrivedUnrel ++ [p] }

/-- Fill the reserved slot of batch `b` with payload `p` (a commit never
reorders, it only fills; §4.2). -/
def commitAt (q : List Slot) (b : Nat) (p : List Nat) : List Slot :=
  q.map fun sl =>
    match sl with
    | .reserved b' => if b' = b then Slot.committed p true b else sl
    | _ => sl

/-- Modelled from the spec (§4.6, REL case): if `batchNumber ≤
remoteBatchNumReserved` and the slot is not reserved, the packet is a
duplicate and is dropped (only an ACK is emitted); if it is reserved,
the payload is committed into the reserved slot; otherwise slots for the
in-between batches are reserved at the back, the packet's own slot is
committed, and `remoteBatchNumReserved` advances to this batch. -/
def recvRel (s : RxState) (b : Nat) (p : List Nat) : RxState :=
  if b ≤ s.remoteBatchNumReserved then
    if Slot.reserved b ∈ s.queue then
      { s with queue := commitAt s.queue b p }
    else s
  else
    { s with
      queue := s.queue ++
        (List.range' (s.remoteBatchNumReserved + 1) (b - 1 - s.remoteBatchNumReserved)).map Slot.reserved
        ++ [Slot.committed p true b]
      remoteBatchNumReserved := b }

/-- Modelled from the spec (§4.4, §4.6 RESERVE_TIMEOUT): abandoning a
reservation removes the reserved slot for that batch from the queue. -/
def dropReservation (s : RxState) (b : Nat) : RxState :=
  { s with queue := s.queue.filter fun sl => sl ≠ Slot.reserved b }

/-- Modelled from the spec (§4.2, §4.7): the dequeue at the heart of
`RcpSocket::receive` pops the front slot, and only when it is committed;
otherwise it yields nothing and changes nothing.  It returns the
(payload, reliable, batch) of the popped slot and the state after,
recording in the ghost logs what was handed to the user. -/
def popFront (s : RxState) : Option (List Nat × Bool × Nat) × RxState :=
  match s.queue with
  | Slot.committed p r b :: rest =>
    (some (p, r, b),
      { s with
        queue := rest
        deliveredRel := if r then s.deliveredRel ++ [b] else s.deliveredRel
        deliveredUnrel := if r then s.deliveredUnrel else s.deliveredUnrel ++ [p] })
  | _ => (none, s)

/-- Modelled from the spec (§4.7, §7 WouldBlock): non-blocking
`RcpSocket::receive` — if the front of the queue is committed it pops it
into the caller's packet and returns true; otherwise it returns false
immediately, leaving the caller's packet and the session state
untouched. -/
def receiveNB (s : RxState) (pkt : List Nat × Bool) :
    Bool × (List Nat × Bool) × RxState :=
  match popFront s with
  | (some x, s') => (true, (x.1, x.2.1), s')
  | (none, _) => (false, pkt, s)

/-- One observable action of the receive path: an unreliable arrival, a
reliable arrival, a reservation timeout, or a `receive` call popping the
front. -/
inductive RxStep : RxState → RxState → Prop
  | unrel (s : RxState) (p : List Nat) : RxStep s (pushUnreliable s p)
  | rel (s : RxState) (b : Nat) (p : List Nat) : RxStep s (recvRel s b p)
  | timeout (s : RxState) (b : Nat) : RxStep s (dropReservation s b)
  | recv (s : RxState) : RxStep s (popFront s).2

/-- The receiver states reachable from session establishment. -/
def RxReachable (s : RxState) : Prop :=
  Relation.ReflTransGen RxStep rxInit s

/-! ## Outgoing sequence numbering

Modelled from the spec (§3, §4.7): `sendEx` stamps every transmitted
datagram with the current `localSeqNum` and advances it.  `localSeqNum`
is declared `uint32_t` in RCPSocket.h line 174, so the counter wraps
modulo `2^32`. -/

/-- The transmit-side state: the `uint32_t` sequence counter and the log
of headers handed to the socket, oldest first. -/
structure TxState where
  localSeqNum : Nat
  sent : List RcpHeader
deriving Repr, DecidableEq

/-- Modelled from the spec: every transmission (data, ACK, KEP, SYN, FIN
alike) goes through `sendEx`, which stamps the header with the current
`localSeqNum` and increments the counter; the counter is a `uint32_t`
(RCPSocket.h line 174), so the increment is modulo `2^32`. -/
def sendEx (s : TxState) (batch flags : Nat) : TxState :=
  { localSeqNum := (s.localSeqNum + 1) % 4294967296
    sent := s.sent ++ [⟨s.localSeqNum % 4294967296, batch, flags⟩] }

/-- The transmit state at session start, with initial sequence number
`s0`. -/
def txInit (s0 : Nat) : TxState := ⟨s0 % 4294967296, []⟩

/-- One transmission to the peer: any batch number, any flags value
among the combinations the protocol ever sends on the wire (§6). -/
inductive TxStep : TxState → TxState → Prop
  | send (s : TxState) (batch flags : Nat) (hf : flags ∈ allowedCombos) :
      TxStep s (sendEx s batch flags)

/-- The transmit states reachable from initial sequence number `s0`. -/
def TxReachable (s0 : Nat) (s : TxState) : Prop :=
  Relation.ReflTransGen TxStep (txInit s0) s

/-- `n` successive transmissions from initial sequence number 0 (batch 0,
flags 0, an unreliable data datagram each time). -/
def txIter : Nat → TxState
  | 0 => txInit 0
  | n + 1 => sendEx (txIter n) 0 0

/-! ## The retransmission table

Modelled from the spec (§4.3): `recentPackets` maps each outstanding
reliable batch to its info (RCPSocket.h lines 162–169 declare the map;
the operations live in the missing translation unit). -/

/-- What the table stores per batch, stripped of the timestamps the
claims do not touch: the header and the encoded datagram bytes. -/
structure RecentPacketInfo where
  header : RcpHeader
  data : List Nat
deriving Repr, DecidableEq

/-- The sender-side state the retransmission claims touch: the table
(batch number to info) and `localBatchNum` (RCPSocket.h line 175,
refreshed for each reliable packet sent). -/
structure RetransState where
  recentPackets : Nat → Option RecentPacketInfo
  localBatchNum : Nat

/-- Modelled from the spec (§4.3, §4.7): a reliable send takes the next
`localBatchNum` and inserts exactly one entry keyed by it, holding the
header (flags REL) and the encoded bytes. -/
def reliableSend (s : RetransState) (seq : Nat) (payload : List Nat) : RetransState :=
  let b := s.localBatchNum + 1
  let info : RecentPacketInfo :=
    ⟨⟨seq, b, REL⟩, serialize ⟨seq, b, REL⟩ ++ payload⟩
  { recentPackets := fun k => if k = b then some info else s.recentPackets k
    localBatchNum := b }

/-- Modelled from the spec (§4.3, §4.6 ACK case): on ACK receipt with
batch `b`, remove the entry for `b`; nothing else changes. -/
def recvAck (s : RetransState) (b : Nat) : RetransState :=
  { s with recentPackets := fun k => if k = b then none else s.recentPackets k }

/-! ## Datagram admission

Modelled from the spec (§4.1, §4.6, §6): `decodeDatagram`
(RCPSocket.h line 199) validates an incoming datagram before the engine
acts on it. -/

/-- An incoming UDP datagram: its bytes and the sender's address and
port as the socket reports them. -/
structure Datagram where
  bytes : List Nat
  senderAddr : Nat
  senderPort : Nat
deriving Repr, DecidableEq

/-- Modelled from the spec: `RcpSocket::decodeDatagram` (declared
RCPSocket.h line 199) rejects a datagram shorter than 12 bytes, a
datagram from any sender other than the established peer, or one whose
flags value is not a recognized combination (§6); otherwise it yields
the parsed header and the payload bytes. -/
def decodeDatagram (peerAddr peerPort : Nat) (d : Datagram) :
    Option (RcpHeader × List Nat) :=
  if d.bytes.length < 12 then none
  else if d.senderAddr ≠ peerAddr ∨ d.senderPort ≠ peerPort then none
  else
    let h := deserialize d.bytes
    if allowedFlags h.flags then some (h, d.bytes.drop 12) else none

/-- `RcpSocket::eState` (RCPSocket.h lines 87–91). -/
inductive SessionPhase
  | DISCONNECTED
  | CONNECTED
  | CLOSING
deriving Repr, DecidableEq

/-- The session state an incoming datagram can touch: the receive-side
queue state, the retransmission table, and the connection phase. -/
structure SessionState where
  rx : RxState
  retransTable : Nat → Option RecentPacketInfo
  phase : SessionPhase

/-- Modelled from the spec (§4.6): the engine's handling of one incoming
datagram in the CONNECTED phase.  A datagram `decodeDatagram` rejects is
dropped silently with no state change; otherwise the flags are processed
in the spec's precedence: ACK removes the retransmission entry, KEP does
nothing further, FIN enters CLOSING, REL goes through the reserved-slot
commit path, plain data is appended unreliably. -/
def processDatagram (peerAddr peerPort : Nat) (s : SessionState) (d : Datagram) :
    SessionState :=
  match decodeDatagram peerAddr peerPort d with
  | none => s
  | some (h, payload) =>
    if h.flags &&& ACK ≠ 0 then
      { s with retransTable := fun k => if k = h.batchNumber then none else s.retransTable k }
    else if h.flags &&& KEP ≠ 0 then s
    else if h.flags &&& FIN ≠ 0 then { s with phase := SessionPhase.CLOSING }
    else if h.flags &&& REL ≠ 0 then { s with rx := recvRel s.rx h.batchNumber payload }
    else { s with rx := pushUnreliable s.rx payload }

/-! ## Cancellation tickets

Modelled from the spec (§4.7, §4.8): `cancelCallId` issues a ticket to
each facade call that blocks; `cancel()` advances the cancel counter
(`cancelNotify`) past every ticket issued so far; a woken call compares
its ticket with the counter (RCPSocket.h lines 203–204 declare the two
counters). -/

/-- The cancellation state: the next ticket to issue (`cancelCallId`)
and the cancel counter blocked calls check (`cancelNotify`). -/
structure CancelState where
  nextTicket : Nat
  counter : Nat
deriving Repr, DecidableEq

/-- The cancellation state before any call has blocked. -/
def cancelInit : CancelState := ⟨0, 0⟩

/-- Modelled from the spec: a facade call that blocks records the
current ticket and advances `cancelCallId`. -/
def blockCall (s : CancelState) : CancelState × Nat :=
  ({ s with nextTicket := s.nextTicket + 1 }, s.nextTicket)

/-- Modelled from the spec: `cancel()` advances the counter past every
ticket issued so far, so that exactly the calls in flight observe it. -/
def cancelOp (s : CancelState) : CancelState :=
  { s with counter := s.nextTicket }

/-- Modelled from the spec (§4.8): a woken blocked call returns a
canceled indication exactly when its ticket is strictly below the
cancel counter. -/
def wakesCanceled (t : Nat) (s : CancelState) : Bool := t < s.counter

/-- One step of the cancellation subsystem: a call blocks, or the user
cancels. -/
inductive CStep : CancelState → CancelState → Prop
  | block (s : CancelState) : CStep s (blockCall s).1
  | cancel (s : CancelState) : CStep s (cancelOp s)

/-- The cancellation states reachable from start-up. -/
def CReachable (s : CancelState) : Prop :=
  Relation.ReflTransGen CStep cancelInit s

/-- The property claimed of the sequence counter: every transmitted
datagram carries a sequence number strictly greater than every
previously transmitted one. -/
def seqStrictMono (s : TxState) : Prop :=
  ∀ i j a b, i < j → s.sent.get? i = some a → s.sent.get? j = some b →
    a.sequenceNumber < b.sequenceNumber

/-- The receive-path invariant: reliable slots sit in the queue in
strictly ascending batch order, no reliable slot outruns
`remoteBatchNumReserved`, everything already delivered reliably is
below everything reliable still queued, delivered reliable batches are
ascending and below `remoteBatchNumReserved`, and the unreliable
payloads delivered so far followed by those still queued are exactly
the unreliable arrivals in order. -/
def RxInv (s : RxState) : Prop :=
  (relKeys s.queue).Pairwise (· < ·)
  ∧ (∀ b ∈ relKeys s.queue, b ≤ s.remoteBatchNumReserved)
  ∧ (∀ d ∈ s.deliveredRel, ∀ b ∈ relKeys s.queue, d < b)
  ∧ s.deliveredRel.Pairwise (· < ·)
  ∧ (∀ d ∈ s.deliveredRel, d ≤ s.remoteBatchNumReserved)
  ∧ s.deliveredUnrel ++ unrelPayloads s.queue = s.arrivedUnrel

end RcpSocket

/-! ## `random_access_queue` (random_access_queue.h)

The template is fully present in the sources: a `std::queue` over
`std::deque` exposing the underlying container's `operator[]`.  The
protected member `c` of `std::queue` is the deque, modelled as a `List`
with its front at the head. -/

/-- `random_access_queue<T>`: its state is the protected deque `c` of
the `std::queue` base (front of the queue at the head of the list). -/
structure random_access_queue (α : Type) where
  c : List α
deriving Repr, DecidableEq

namespace random_access_queue

/-- `std::queue::size`. -/
def size (q : random_access_queue α) : Nat := q.c.length

/-- `std::queue::front` (as an `Option`: `none` on the empty queue,
where the C++ call would be undefined). -/
def front? (q : random_access_queue α) : Option α := q.c.head?

/-- `std::queue::back`. -/
def back? (q : random_access_queue α) : Option α := q.c.getLast?

/-- `std::queue::push`: `c.push_back(x)`. -/
def push (q : random_access_queue α) (x : α) : random_access_queue α :=
  ⟨q.c ++ [x]⟩

/-- `std::queue::pop`: `c.pop_front()` (identity on the empty queue,
where the C++ call would be undefined). -/
def pop (q : random_access_queue α) : random_access_queue α :=
  ⟨q.c.tail⟩

/-- `operator[]` (random_access_queue.h lines 48–53): returns
`c[index]`, the deque element at `index` (as an `Option`: `none` out of
range, where the C++ call would be undefined). -/
def operatorIndex (q : random_access_queue α) (i : Nat) : Option α :=
  q.c.get? i

/-- `std::deque`'s copy constructor / copy assignment: the destination
receives the source's elements and the source keeps them. -/
def deque_copy (d : List α) : List α × List α := (d, d)

/-- `std::deque`'s move constructor / move assignment: the destination
receives the source's elements and the source is left empty (the
moved-from state libstdc++ and libc++ produce). -/
def deque_move (d : List α) : List α × List α := (d, [])

/-- The move constructor `random_access_queue(random_access_queue&&
other) : queue_type(other)` (random_access_queue.h line 19).  Inside the
constructor the named parameter `other` is an lvalue, so overload
resolution picks the base's *copy* constructor, not its move
constructor: the base deque is copy-constructed from `other`'s.
Returns (new object, source after construction). -/
def moveConstruct (other : random_access_queue α) :
    random_access_queue α × random_access_queue α :=
  let r := deque_copy other.c
  (⟨r.1⟩, ⟨r.2⟩)

/-- The move assignment `operator=(random_access_queue&& other)`
(random_access_queue.h lines 42–45): it calls
`queue_type::operator=(other)`, and `other` is an lvalue there, so the
base's *copy* assignment runs.  Returns (assignee after, source
after). -/
def moveAssign (_dst other : random_access_queue α) :
    random_access_queue α × random_access_queue α :=
  let r := deque_copy other.c
  (⟨r.1⟩, ⟨r.2⟩)

end random_access_queue

/-! # Theorems -/

namespace RcpSocket

theorem beDecode_u32be (n : Nat) (h : n < 4294967296) :
    beDecode (n / 16777216 % 256) (n / 65536 % 256) (n / 256 % 256) (n % 256) = n := by
  unfold beDecode
  omega

/-- C1: serializing any header whose three fields are 32-bit values and
deserializing the resulting 12 bytes reproduces the original fields. -/
theorem c1_header_roundtrip (h : RcpHeader)
    (h1 : h.sequenceNumber < 4294967296) (h2 : h.batchNumber < 4294967296)
    (h3 : h.flags < 4294967296) :
    deserialize (serialize h) = h := by
  obtain ⟨s, b, f⟩ := h
  simp only [serialize, u32be, List.cons_append, List.nil_append, deserialize,
    RcpHeader.mk.injEq]
  exact ⟨beDecode_u32be s h1, beDecode_u32be b h2, beDecode_u32be f h3⟩

/-- C1 witness: the round trip evaluated at a concrete header. -/
theorem c1_header_roundtrip_witness :
    (3735928559 : Nat) < 4294967296 ∧
    deserialize (serialize ⟨3735928559, 305419896, 17⟩) = ⟨3735928559, 305419896, 17⟩ :=
  ⟨by norm_num,
    c1_header_roundtrip ⟨3735928559, 305419896, 17⟩ (by norm_num) (by norm_num) (by norm_num)⟩

/-- C8: the flag bitfield has exactly the declared values; `CANCEL` is
bit-disjoint from every wire flag; and in the transmission model no
datagram transmitted to the peer ever carries the `CANCEL` bit. -/
theorem c8_flag_values :
    (SYN = 1 ∧ ACK = 2 ∧ FIN = 4 ∧ KEP = 8 ∧ REL = 16 ∧ CANCEL = 2 ^ 31)
    ∧ (∀ f ∈ wireFlags, CANCEL &&& f = 0)
    ∧ (∀ s0 s, TxReachable s0 s → ∀ hd ∈ s.sent, hd.flags &&& CANCEL = 0) := by
  refine ⟨by decide, by decide, ?_⟩
  intro s0 s hs
  induction hs with
  | refl =>
    intro hd hmem
    simp [txInit] at hmem
  | tail _ step ih =>
    cases step with
    | send batch flags hf =>
      intro hd hmem
      simp only [sendEx, List.mem_append, List.mem_singleton] at hmem
      rcases hmem with hm | hm
      · exact ih hd hm
      · subst hm
        have hall : ∀ f ∈ allowedCombos, f &&& CANCEL = 0 := by decide
        exact hall flags hf

/-- C8 witness: `CANCEL` is disjoint from the concrete wire flag `SYN`. -/
theorem c8_flag_values_witness : CANCEL &&& SYN = 0 :=
  c8_flag_values.2.1 SYN (by decide)

end RcpSocket

namespace random_access_queue

theorem head?_drop' (l : List α) (i : Nat) : (l.drop i).head? = l.get? i := by
  induction l generalizing i with
  | nil => simp
  | cons a t ih =>
    cases i with
    | zero => simp
    | succ n => simp [ih]

theorem tail_drop' (l : List α) (n : Nat) : (l.drop n).tail = l.drop (n + 1) := by
  induction l generalizing n with
  | nil => simp
  | cons a t ih =>
    cases n with
    | zero => simp
    | succ m => simp [ih]

theorem pop_iterate (q : random_access_queue α) (i : Nat) :
    (pop^[i] q).c = q.c.drop i := by
  induction i with
  | zero => simp
  | succ n ih =>
    rw [Function.iterate_succ_apply']
    show (pop^[n] q).c.tail = q.c.drop (n + 1)
    rw [ih, tail_drop']

/-- C9: `operator[]` is positional dequeue order: index `i` is the
element dequeued after exactly `i` pops, index 0 is the front, index
`size - 1` is the back, `push` appends at the back without disturbing
existing indices, and `pop` shifts every index down by one. -/
theorem c9_operator_index (q : random_access_queue α) (x : α) (i : Nat)
    (h : i < q.size) :
    q.operatorIndex i = (pop^[i] q).front?
    ∧ q.operatorIndex 0 = q.front?
    ∧ q.operatorIndex (q.size - 1) = q.back?
    ∧ (q.push x).operatorIndex i = q.operatorIndex i
    ∧ (q.push x).operatorIndex q.size = some x
    ∧ q.pop.operatorIndex i = q.operatorIndex (i + 1) := by
  refine ⟨?_, ?_, ?_, ?_, ?_, ?_⟩
  · rw [operatorIndex, front?, pop_iterate, head?_drop']
  · rw [operatorIndex, front?, List.get?_zero]
  · rw [operatorIndex, back?, size, List.getLast?_eq_get?]
  · exact List.get?_append h
  · exact List.get?_concat_length q.c x
  · show q.c.tail.get? i = q.c.get? (i + 1)
    cases q.c <;> simp

/-- C9 witness: the indexing laws at a concrete three-element queue. -/
theorem c9_operator_index_witness :
    (1 : Nat) < size (⟨[10, 20, 30]⟩ : random_access_queue Nat)
    ∧ operatorIndex (⟨[10, 20, 30]⟩ : random_access_queue Nat) 1
        = (pop^[1] (⟨[10, 20, 30]⟩ : random_access_queue Nat)).front? :=
  ⟨by decide, (c9_operator_index ⟨[10, 20, 30]⟩ 40 1 (by decide)).1⟩

/-- C10: the move constructor and move assignment of
`random_access_queue` behave as copies — the destination receives the
source's prior contents and the source is left unchanged, because the
rvalue-reference parameter is an lvalue inside the body and so the
base's copy operations are selected. -/
theorem c10_move_behaves_as_copy (q d : random_access_queue α) :
    moveConstruct q = (q, q) ∧ moveAssign d q = (q, q) :=
  ⟨rfl, rfl⟩

/-- C10 witness: move-construction and move-assignment evaluated on
concrete queues. -/
theorem c10_move_behaves_as_copy_witness :
    moveConstruct (⟨[1, 2]⟩ : random_access_queue Nat) = (⟨[1, 2]⟩, ⟨[1, 2]⟩)
    ∧ moveAssign (⟨[9]⟩ : random_access_queue Nat) ⟨[1, 2]⟩ = (⟨[1, 2]⟩, ⟨[1, 2]⟩) :=
  c10_move_behaves_as_copy ⟨[1, 2]⟩ ⟨[9]⟩

end random_access_queue

namespace RcpSocket

/-- C4: a reliable transmit inserts exactly one entry, keyed by its
batch number, into the retransmission table (every other key is
untouched); an ACK for batch `b` removes the entry for `b`; and ACK
processing is idempotent — a duplicate ACK leaves the entire state
unchanged. -/
theorem c4_retransmission_table (s : RetransState) (seq : Nat)
    (payload : List Nat) (b : Nat) :
    (reliableSend s seq payload).recentPackets (s.localBatchNum + 1)
      = some ⟨⟨seq, s.localBatchNum + 1, REL⟩,
          serialize ⟨seq, s.localBatchNum + 1, REL⟩ ++ payload⟩
    ∧ (∀ k, k ≠ s.localBatchNum + 1 →
        (reliableSend s seq payload).recentPackets k = s.recentPackets k)
    ∧ (reliableSend s seq payload).localBatchNum = s.localBatchNum + 1
    ∧ (recvAck s b).recentPackets b = none
    ∧ (∀ k, k ≠ b → (recvAck s b).recentPackets k = s.recentPackets k)
    ∧ (recvAck s b).localBatchNum = s.localBatchNum
    ∧ recvAck (recvAck s b) b = recvAck s b := by
  refine ⟨by simp [reliableSend], ?_, rfl, by simp [recvAck], ?_, rfl, ?_⟩
  · intro k hk
    simp [reliableSend, hk]
  · intro k hk
    simp [recvAck, hk]
  · show RetransState.mk _ _ = RetransState.mk _ _
    simp only [recvAck, RetransState.mk.injEq]
    constructor
    · funext k
      by_cases hk : k = b <;> simp [hk]
    · trivial

/-- C4 witness: the insert/remove/idempotence laws at a concrete
state. -/
theorem c4_retransmission_table_witness :
    (reliableSend ⟨fun _ => none, 0⟩ 5 [9]).recentPackets 2 = none
    ∧ recvAck (recvAck ⟨fun _ => none, 0⟩ 3) 3 = recvAck ⟨fun _ => none, 0⟩ 3 :=
  ⟨((c4_retransmission_table ⟨fun _ => none, 0⟩ 5 [9] 3).2.1 2 (by decide)).trans rfl,
    (c4_retransmission_table ⟨fun _ => none, 0⟩ 5 [9] 3).2.2.2.2.2.2⟩

/-- C5: `decodeDatagram` rejects — and the engine drops with no state
change — every datagram shorter than 12 bytes, from a sender other than
the established peer, or whose flags value is not a recognized control
or data combination. -/
theorem c5_datagram_rejection (peerAddr peerPort : Nat) (s : SessionState)
    (d : Datagram)
    (h : d.bytes.length < 12
      ∨ (d.senderAddr ≠ peerAddr ∨ d.senderPort ≠ peerPort)
      ∨ allowedFlags (deserialize d.bytes).flags = false) :
    decodeDatagram peerAddr peerPort d = none
    ∧ processDatagram peerAddr peerPort s d = s := by
  have hd : decodeDatagram peerAddr peerPort d = none := by
    unfold decodeDatagram
    rcases h with h | h | h
    · simp [h]
    · by_cases hl : d.bytes.length < 12 <;> simp [hl, h]
    · by_cases hl : d.bytes.length < 12
      · simp [hl]
      · by_cases hs : d.senderAddr ≠ peerAddr ∨ d.senderPort ≠ peerPort <;>
          simp [hl, hs, h]
  refine ⟨hd, ?_⟩
  unfold processDatagram
  rw [hd]

/-- C5 witness: a 3-byte datagram from the correct peer is rejected and
leaves a concrete session state untouched. -/
theorem c5_datagram_rejection_witness :
    decodeDatagram 1 2 ⟨[1, 2, 3], 1, 2⟩ = none
    ∧ processDatagram 1 2 ⟨rxInit, fun _ => none, SessionPhase.CONNECTED⟩ ⟨[1, 2, 3], 1, 2⟩
        = ⟨rxInit, fun _ => none, SessionPhase.CONNECTED⟩ :=
  c5_datagram_rejection 1 2 ⟨rxInit, fun _ => none, SessionPhase.CONNECTED⟩
    ⟨[1, 2, 3], 1, 2⟩ (Or.inl (by decide))

theorem cstep_nextTicket_mono {a b : CancelState} (h : CStep a b) :
    a.nextTicket ≤ b.nextTicket := by
  cases h with
  | block => exact Nat.le_succ _
  | cancel => exact Nat.le_refl _

theorem creach_nextTicket_mono {a b : CancelState}
    (h : Relation.ReflTransGen CStep a b) : a.nextTicket ≤ b.nextTicket := by
  induction h with
  | refl => exact Nat.le_refl _
  | tail _ step ih => exact ih.trans (cstep_nextTicket_mono step)

/-- C6: a blocked call holding ticket `t` observes a canceled
indication upon wake exactly when `t` is strictly below the cancel
counter; so a `cancel()` issued in state `s` aborts exactly the tickets
issued before it (`t < s.nextTicket`) and no call that blocks at any
later state is aborted by it. -/
theorem c6_cancellation_tickets (s : CancelState) (_hs : CReachable s) (t : Nat) :
    (wakesCanceled t (cancelOp s) = true ↔ t < s.nextTicket)
    ∧ (∀ s', Relation.ReflTransGen CStep (cancelOp s) s' →
        wakesCanceled (blockCall s').2 (cancelOp s) = false) := by
  constructor
  · simp [wakesCanceled, cancelOp]
  · intro s' hs'
    have hmono := creach_nextTicket_mono hs'
    simp only [cancelOp] at hmono
    simp only [wakesCanceled, blockCall, cancelOp, decide_eq_false_iff_not, Nat.not_lt]
    exact hmono

/-- C6 witness: after one call blocks and `cancel()` fires, the blocked
ticket 0 observes cancellation, and a call blocking after the cancel
does not. -/
theorem c6_cancellation_tickets_witness :
    wakesCanceled 0 (cancelOp (blockCall cancelInit).1) = true
    ∧ wakesCanceled (blockCall (cancelOp (blockCall cancelInit).1)).2
        (cancelOp (blockCall cancelInit).1) = false := by
  have hr : CReachable (blockCall cancelInit).1 :=
    Relation.ReflTransGen.single (CStep.block cancelInit)
  exact ⟨(c6_cancellation_tickets (blockCall cancelInit).1 hr 0).1.mpr (by decide),
    (c6_cancellation_tickets (blockCall cancelInit).1 hr 0).2 _ Relation.ReflTransGen.refl⟩

/-- C7: a non-blocking `receive` while the front of the delivery queue
is absent or still reserved returns false and leaves both the caller's
packet and the session state untouched. -/
theorem c7_would_block (s : RxState) (pkt : List Nat × Bool)
    (h : s.queue.head? = none ∨ ∃ b, s.queue.head? = some (Slot.reserved b)) :
    receiveNB s pkt = (false, pkt, s) := by
  cases hq : s.queue with
  | nil => simp [receiveNB, popFront, hq]
  | cons a rest =>
    cases a with
    | reserved b' => simp [receiveNB, popFront, hq]
    | committed p r b' =>
      exfalso
      rcases h with h | ⟨b, h⟩ <;> simp [hq] at h

/-- C7 witness: non-blocking receive on the empty initial queue returns
false with the caller's packet unchanged. -/
theorem c7_would_block_witness :
    receiveNB rxInit ([5], true) = (false, ([5], true), rxInit) :=
  c7_would_block rxInit ([5], true) (Or.inl rfl)

end RcpSocket

namespace RcpSocket

theorem tx_spec_step (s0 : Nat) (s : TxState) (batch flags : Nat)
    (h1 : s.localSeqNum = (s0 + s.sent.length) % 4294967296)
    (h2 : ∀ k a, s.sent.get? k = some a →
      a.sequenceNumber = (s0 + k) % 4294967296) :
    (sendEx s batch flags).localSeqNum
      = (s0 + (sendEx s batch flags).sent.length) % 4294967296
    ∧ ∀ k a, (sendEx s batch flags).sent.get? k = some a →
        a.sequenceNumber = (s0 + k) % 4294967296 := by
  constructor
  · simp only [sendEx, List.length_append, List.length_singleton, h1]
    omega
  · intro k a hk
    simp only [sendEx] at hk
    rcases Nat.lt_trichotomy k s.sent.length with hlt | heq | hgt
    · rw [List.get?_append hlt] at hk
      exact h2 k a hk
    · subst heq
      rw [List.get?_concat_length] at hk
      obtain rfl : (⟨s.localSeqNum % 4294967296, batch, flags⟩ : RcpHeader) = a :=
        Option.some.inj hk
      simp only [h1]
      omega
    · have hlen :
          (s.sent ++ [(⟨s.localSeqNum % 4294967296, batch, flags⟩ : RcpHeader)]).length ≤ k := by
        simp only [List.length_append, List.length_singleton]
        omega
      rw [List.get?_eq_none.mpr hlen] at hk
      exact absurd hk (by simp)

theorem tx_reach_spec (s0 : Nat) (s : TxState) (hs : TxReachable s0 s) :
    s.localSeqNum = (s0 + s.sent.length) % 4294967296
    ∧ ∀ k a, s.sent.get? k = some a →
        a.sequenceNumber = (s0 + k) % 4294967296 := by
  induction hs with
  | refl =>
    refine ⟨by simp [txInit], ?_⟩
    intro k a hk
    simp [txInit] at hk
  | tail _ step ih =>
    cases step with
    | send batch flags hf => exact tx_spec_step s0 _ batch flags ih.1 ih.2

theorem txIter_len (n : Nat) : (txIter n).sent.length = n := by
  induction n with
  | zero => rfl
  | succ m ih => simp [txIter, sendEx, ih]

theorem txIter_reachable (n : Nat) : TxReachable 0 (txIter n) := by
  induction n with
  | zero => exact Relation.ReflTransGen.refl
  | succ m ih =>
    show Relation.ReflTransGen TxStep (txInit 0) (sendEx (txIter m) 0 0)
    exact ih.tail (TxStep.send _ 0 0 (by decide))

/-- C3 counterexample: the claim as stated fails on the `uint32_t`
counter — after `2^32 + 1` transmissions the sequence number has
wrapped, so the datagram at position `2^32` carries sequence number 0,
not greater than the first datagram's 0. -/
theorem c3_counterexample : ∃ s, TxReachable 0 s ∧ ¬ seqStrictMono s := by
  refine ⟨txIter 4294967297, txIter_reachable _, fun hmono => ?_⟩
  obtain ⟨-, hspec⟩ := tx_reach_spec 0 _ (txIter_reachable 4294967297)
  have hlen := txIter_len 4294967297
  have h0 : ∃ a, (txIter 4294967297).sent.get? 0 = some a := by
    have hx : 0 < (txIter 4294967297).sent.length := by omega
    exact ⟨_, List.get?_eq_some.mpr ⟨hx, rfl⟩⟩
  have h1 : ∃ a, (txIter 4294967297).sent.get? 4294967296 = some a := by
    have hx : 4294967296 < (txIter 4294967297).sent.length := by omega
    exact ⟨_, List.get?_eq_some.mpr ⟨hx, rfl⟩⟩
  obtain ⟨a, ha⟩ := h0
  obtain ⟨b, hb⟩ := h1
  have hai := hspec 0 a ha
  have hbj := hspec 4294967296 b hb
  have hlt := hmono 0 4294967296 a b (by omega) ha hb
  omega

/-- C3 (amended): the sequence numbers placed on the wire are strictly
increasing across every transmission, provided the endpoint transmits
at most `2^32` datagrams in the session (`localSeqNum` is a `uint32_t`
and wraps modulo `2^32` beyond that). -/
theorem c3_seq_strictly_increasing (s0 : Nat) (s : TxState)
    (hs : TxReachable s0 s)
    (hbound : s0 % 4294967296 + s.sent.length ≤ 4294967296) :
    seqStrictMono s := by
  obtain ⟨-, hspec⟩ := tx_reach_spec s0 s hs
  intro i j a b hij ha hb
  have hai := hspec i a ha
  have hbj := hspec j b hb
  have hjlen : j < s.sent.length := by
    rcases List.get?_eq_some.mp hb with ⟨h, -⟩
    exact h
  omega

/-- C3 witness: among three concrete transmissions the first sequence
number is below the third. -/
theorem c3_seq_strictly_increasing_witness :
    (⟨0, 0, 0⟩ : RcpHeader).sequenceNumber < (⟨2, 0, 0⟩ : RcpHeader).sequenceNumber :=
  c3_seq_strictly_increasing 0 (txIter 3) (txIter_reachable 3)
    (by rw [txIter_len]; norm_num) 0 2 ⟨0, 0, 0⟩ ⟨2, 0, 0⟩ (by norm_num)
    (by decide) (by decide)

end RcpSocket

namespace RcpSocket

@[simp] theorem relKeys_nil : relKeys [] = [] := rfl

@[simp] theorem relKeys_cons_reserved (b : Nat) (q : List Slot) :
    relKeys (Slot.reserved b :: q) = b :: relKeys q := rfl

@[simp] theorem relKeys_cons_committed_true (p : List Nat) (b : Nat) (q : List Slot) :
    relKeys (Slot.committed p true b :: q) = b :: relKeys q := rfl

@[simp] theorem relKeys_cons_committed_false (p : List Nat) (b : Nat) (q : List Slot) :
    relKeys (Slot.committed p false b :: q) = relKeys q := rfl

@[simp] theorem unrelPayloads_nil : unrelPayloads [] = [] := rfl

@[simp] theorem unrelPayloads_cons_reserved (b : Nat) (q : List Slot) :
    unrelPayloads (Slot.reserved b :: q) = unrelPayloads q := rfl

@[simp] theorem unrelPayloads_cons_committed_true (p : List Nat) (b : Nat) (q : List Slot) :
    unrelPayloads (Slot.committed p true b :: q) = unrelPayloads q := rfl

@[simp] theorem unrelPayloads_cons_committed_false (p : List Nat) (b : Nat) (q : List Slot) :
    unrelPayloads (Slot.committed p false b :: q) = p :: unrelPayloads q := rfl

@[simp] theorem relKeys_append (q1 q2 : List Slot) :
    relKeys (q1 ++ q2) = relKeys q1 ++ relKeys q2 :=
  List.filterMap_append q1 q2 _

@[simp] theorem unrelPayloads_append (q1 q2 : List Slot) :
    unrelPayloads (q1 ++ q2) = unrelPayloads q1 ++ unrelPayloads q2 :=
  List.filterMap_append q1 q2 _

theorem relKeys_map_reserved (l : List Nat) :
    relKeys (l.map Slot.reserved) = l := by
  induction l with
  | nil => rfl
  | cons a t ih => rw [List.map_cons, relKeys_cons_reserved, ih]

theorem unrelPayloads_map_reserved (l : List Nat) :
    unrelPayloads (l.map Slot.reserved) = [] := by
  induction l with
  | nil => rfl
  | cons a t ih => rw [List.map_cons, unrelPayloads_cons_reserved, ih]

theorem commitAt_cons_reserved_eq (b : Nat) (p : List Nat) (q : List Slot) :
    commitAt (Slot.reserved b :: q) b p = Slot.committed p true b :: commitAt q b p := by
  simp [commitAt]

theorem commitAt_cons_reserved_ne {b' b : Nat} (hb : b' ≠ b) (p : List Nat) (q : List Slot) :
    commitAt (Slot.reserved b' :: q) b p = Slot.reserved b' :: commitAt q b p := by
  simp [commitAt, hb]

theorem commitAt_cons_committed (pp : List Nat) (r : Bool) (bb : Nat)
    (b : Nat) (p : List Nat) (q : List Slot) :
    commitAt (Slot.committed pp r bb :: q) b p
      = Slot.committed pp r bb :: commitAt q b p := by
  simp [commitAt]

theorem relKeys_commitAt (q : List Slot) (b : Nat) (p : List Nat) :
    relKeys (commitAt q b p) = relKeys q := by
  induction q with
  | nil => rfl
  | cons sl rest ih =>
    cases sl with
    | reserved b' =>
      by_cases hb : b' = b
      · subst hb
        rw [commitAt_cons_reserved_eq, relKeys_cons_committed_true,
          relKeys_cons_reserved, ih]
      · rw [commitAt_cons_reserved_ne hb, relKeys_cons_reserved,
          relKeys_cons_reserved, ih]
    | committed pp r bb =>
      cases r with
      | true =>
        rw [commitAt_cons_committed, relKeys_cons_committed_true,
          relKeys_cons_committed_true, ih]
      | false =>
        rw [commitAt_cons_committed, relKeys_cons_committed_false,
          relKeys_cons_committed_false, ih]

theorem unrelPayloads_commitAt (q : List Slot) (b : Nat) (p : List Nat) :
    unrelPayloads (commitAt q b p) = unrelPayloads q := by
  induction q with
  | nil => rfl
  | cons sl rest ih =>
    cases sl with
    | reserved b' =>
      by_cases hb : b' = b
      · subst hb
        rw [commitAt_cons_reserved_eq, unrelPayloads_cons_committed_true,
          unrelPayloads_cons_reserved, ih]
      · rw [commitAt_cons_reserved_ne hb, unrelPayloads_cons_reserved,
          unrelPayloads_cons_reserved, ih]
    | committed pp r bb =>
      cases r with
      | true =>
        rw [commitAt_cons_committed, unrelPayloads_cons_committed_true,
          unrelPayloads_cons_committed_true, ih]
      | false =>
        rw [commitAt_cons_committed, unrelPayloads_cons_committed_false,
          unrelPayloads_cons_committed_false, ih]

theorem unrelPayloads_dropRes (q : List Slot) (b : Nat) :
    unrelPayloads (q.filter fun sl => sl ≠ Slot.reserved b) = unrelPayloads q := by
  induction q with
  | nil => rfl
  | cons sl rest ih =>
    cases sl with
    | reserved b' =>
      by_cases hb : b' = b
      · subst hb
        rw [List.filter_cons_of_neg (by simp), unrelPayloads_cons_reserved, ih]
      · rw [List.filter_cons_of_pos (by simp [hb]), unrelPayloads_cons_reserved,
          unrelPayloads_cons_reserved, ih]
    | committed pp r bb =>
      cases r with
      | true =>
        rw [List.filter_cons_of_pos (by simp), unrelPayloads_cons_committed_true,
          unrelPayloads_cons_committed_true, ih]
      | false =>
        rw [List.filter_cons_of_pos (by simp), unrelPayloads_cons_committed_false,
          unrelPayloads_cons_committed_false, ih]

theorem rxinv_init : RxInv rxInit := by
  refine ⟨?_, ?_, ?_, ?_, ?_, ?_⟩ <;> simp [rxInit]

theorem rxinv_push (s : RxState) (p : List Nat) (h : RxInv s) :
    RxInv (pushUnreliable s p) := by
  obtain ⟨h1, h2, h3, h4, h5, h6⟩ := h
  refine ⟨?_, ?_, ?_, h4, h5, ?_⟩
  · simpa [pushUnreliable] using h1
  · simpa [pushUnreliable] using h2
  · simpa [pushUnreliable] using h3
  · show s.deliveredUnrel ++ unrelPayloads (s.queue ++ [Slot.committed p false 0])
      = s.arrivedUnrel ++ [p]
    rw [unrelPayloads_append, unrelPayloads_cons_committed_false, unrelPayloads_nil,
      ← List.append_assoc, h6]

theorem rxinv_rel (s : RxState) (b : Nat) (p : List Nat) (h : RxInv s) :
    RxInv (recvRel s b p) := by
  obtain ⟨h1, h2, h3, h4, h5, h6⟩ := h
  unfold recvRel
  split
  case isTrue hle =>
    split
    case isTrue hmem =>
      refine ⟨?_, ?_, ?_, h4, h5, ?_⟩
      · show (relKeys (commitAt s.queue b p)).Pairwise (· < ·)
        rw [relKeys_commitAt]
        exact h1
      · show ∀ k ∈ relKeys (commitAt s.queue b p), k ≤ s.remoteBatchNumReserved
        rw [relKeys_commitAt]
        exact h2
      · show ∀ d ∈ s.deliveredRel, ∀ k ∈ relKeys (commitAt s.queue b p), d < k
        rw [relKeys_commitAt]
        exact h3
      · show s.deliveredUnrel ++ unrelPayloads (commitAt s.queue b p) = s.arrivedUnrel
        rw [unrelPayloads_commitAt]
        exact h6
    case isFalse hmem => exact ⟨h1, h2, h3, h4, h5, h6⟩
  case isFalse hgt =>
    have hlt : s.remoteBatchNumReserved < b := Nat.lt_of_not_le hgt
    have hmemR : ∀ x ∈ List.range' (s.remoteBatchNumReserved + 1)
        (b - 1 - s.remoteBatchNumReserved), s.remoteBatchNumReserved + 1 ≤ x ∧ x < b := by
      intro x hx
      rw [List.mem_range'_1] at hx
      omega
    refine ⟨?_, ?_, ?_, h4, ?_, ?_⟩
    · show (relKeys (s.queue ++
        (List.range' (s.remoteBatchNumReserved + 1) (b - 1 - s.remoteBatchNumReserved)).map Slot.reserved
        ++ [Slot.committed p true b])).Pairwise (· < ·)
      rw [relKeys_append, relKeys_append, relKeys_map_reserved,
        relKeys_cons_committed_true, relKeys_nil]
      rw [List.pairwise_append]
      refine ⟨?_, List.pairwise_singleton _ _, ?_⟩
      · rw [List.pairwise_append]
        refine ⟨h1, List.pairwise_lt_range' _ _, ?_⟩
        intro x hx y hy
        have hxb := h2 x hx
        have := (hmemR y hy).1
        omega
      · intro x hx y hy
        rw [List.mem_singleton] at hy
        rw [List.mem_append] at hx
        rw [hy]
        rcases hx with hx | hx
        · have := h2 x hx
          omega
        · exact (hmemR x hx).2
    · show ∀ k ∈ relKeys (s.queue ++
        (List.range' (s.remoteBatchNumReserved + 1) (b - 1 - s.remoteBatchNumReserved)).map Slot.reserved
        ++ [Slot.committed p true b]), k ≤ b
      rw [relKeys_append, relKeys_append, relKeys_map_reserved,
        relKeys_cons_committed_true, relKeys_nil]
      intro k hk
      rw [List.mem_append, List.mem_append, List.mem_singleton] at hk
      rcases hk with (hk | hk) | hk
      · have := h2 k hk
        omega
      · have := (hmemR k hk).2
        omega
      · omega
    · show ∀ d ∈ s.deliveredRel, ∀ k ∈ relKeys (s.queue ++
        (List.range' (s.remoteBatchNumReserved + 1) (b - 1 - s.remoteBatchNumReserved)).map Slot.reserved
        ++ [Slot.committed p true b]), d < k
      rw [relKeys_append, relKeys_append, relKeys_map_reserved,
        relKeys_cons_committed_true, relKeys_nil]
      intro d hd k hk
      have hdle := h5 d hd
      rw [List.mem_append, List.mem_append, List.mem_singleton] at hk
      rcases hk with (hk | hk) | hk
      · exact h3 d hd k hk
      · have := (hmemR k hk).1
        omega
      · omega
    · show ∀ d ∈ s.deliveredRel, d ≤ b
      intro d hd
      have := h5 d hd
      omega
    · show s.deliveredUnrel ++ unrelPayloads (s.queue ++
        (List.range' (s.remoteBatchNumReserved + 1) (b - 1 - s.remoteBatchNumReserved)).map Slot.reserved
        ++ [Slot.committed p true b]) = s.arrivedUnrel
      rw [unrelPayloads_append, unrelPayloads_append, unrelPayloads_map_reserved,
        unrelPayloads_cons_committed_true, unrelPayloads_nil, List.append_nil,
        List.append_nil]
      exact h6

theorem rxinv_drop (s : RxState) (b : Nat) (h : RxInv s) :
    RxInv (dropReservation s b) := by
  obtain ⟨h1, h2, h3, h4, h5, h6⟩ := h
  have hsub : List.Sublist
      (relKeys (s.queue.filter fun sl => sl ≠ Slot.reserved b)) (relKeys s.queue) :=
    (List.filter_sublist s.queue).filterMap _
  refine ⟨?_, ?_, ?_, h4, h5, ?_⟩
  · exact h1.sublist hsub
  · intro k hk
    exact h2 k (hsub.subset hk)
  · intro d hd k hk
    exact h3 d hd k (hsub.subset hk)
  · show s.deliveredUnrel ++ unrelPayloads (s.queue.filter fun sl => sl ≠ Slot.reserved b)
      = s.arrivedUnrel
    rw [unrelPayloads_dropRes]
    exact h6

theorem rxinv_pop (s : RxState) (h : RxInv s) : RxInv (popFront s).2 := by
  cases hq : s.queue with
  | nil =>
    have : (popFront s).2 = s := by simp [popFront, hq]
    rw [this]
    exact h
  | cons sl rest =>
    cases sl with
    | reserved b' =>
      have : (popFront s).2 = s := by simp [popFront, hq]
      rw [this]
      exact h
    | committed p r b' =>
      obtain ⟨h1, h2, h3, h4, h5, h6⟩ := h
      rw [hq] at h1 h2 h3 h6
      cases r with
      | true =>
        rw [relKeys_cons_committed_true] at h1 h2 h3
        rw [unrelPayloads_cons_committed_true] at h6
        rw [List.pairwise_cons] at h1
        have hstate : (popFront s).2 =
            { s with queue := rest, deliveredRel := s.deliveredRel ++ [b'] } := by
          simp [popFront, hq]
        rw [hstate]
        refine ⟨h1.2, ?_, ?_, ?_, ?_, h6⟩
        · intro k hk
          exact h2 k (List.mem_cons_of_mem _ hk)
        · intro d hd k hk
          rw [List.mem_append, List.mem_singleton] at hd
          rcases hd with hd | hd
          · exact h3 d hd k (List.mem_cons_of_mem _ hk)
          · rw [hd]
            exact h1.1 k hk
        · rw [List.pairwise_append]
          refine ⟨h4, List.pairwise_singleton _ _, ?_⟩
          intro d hd y hy
          rw [List.mem_singleton] at hy
          rw [hy]
          exact h3 d hd b' (List.mem_cons_self _ _)
        · intro d hd
          rw [List.mem_append, List.mem_singleton] at hd
          rcases hd with hd | hd
          · exact h5 d hd
          · rw [hd]
            exact h2 b' (List.mem_cons_self _ _)
      | false =>
        rw [relKeys_cons_committed_false] at h1 h2 h3
        rw [unrelPayloads_cons_committed_false] at h6
        have hstate : (popFront s).2 =
            { s with queue := rest, deliveredUnrel := s.deliveredUnrel ++ [p] } := by
          simp [popFront, hq]
        rw [hstate]
        refine ⟨h1, h2, h3, h4, h5, ?_⟩
        · show (s.deliveredUnrel ++ [p]) ++ unrelPayloads rest = s.arrivedUnrel
          rw [List.append_assoc, List.singleton_append]
          exact h6

theorem rx_reach_inv (s : RxState) (hs : RxReachable s) : RxInv s := by
  induction hs with
  | refl => exact rxinv_init
  | tail _ step ih =>
    cases step with
    | unrel p => exact rxinv_push _ p ih
    | rel b p => exact rxinv_rel _ b p ih
    | timeout b => exact rxinv_drop _ b ih
    | recv => exact rxinv_pop _ ih

/-- C2: in every reachable receiver state the queue's reliable slots sit
in strictly ascending batch order, the reliable messages `receive` has
returned are in strictly ascending batch order, the unreliable messages
are interleaved in their arrival order (what has been delivered followed
by what is still queued is exactly the arrival sequence), and `receive`
pops only the front slot and only when it is committed. -/
theorem c2_receive_in_order (s : RxState) (hs : RxReachable s) :
    (relKeys s.queue).Pairwise (· < ·)
    ∧ s.deliveredRel.Pairwise (· < ·)
    ∧ s.deliveredUnrel ++ unrelPayloads s.queue = s.arrivedUnrel
    ∧ (∀ x s', popFront s = (some x, s') →
        s.queue.head? = some (Slot.committed x.1 x.2.1 x.2.2) ∧ s'.queue = s.queue.tail)
    ∧ (∀ s', popFront s = (none, s') → s' = s) := by
  obtain ⟨h1, h2, h3, h4, h5, h6⟩ := rx_reach_inv s hs
  refine ⟨h1, h4, h6, ?_, ?_⟩
  · intro x s' hps
    cases hq : s.queue with
    | nil => simp [popFront, hq] at hps
    | cons sl rest =>
      cases sl with
      | reserved b' => simp [popFront, hq] at hps
      | committed p r b' =>
        simp only [popFront, hq, Prod.mk.injEq, Option.some.injEq] at hps
        obtain ⟨hx, hs'⟩ := hps
        subst hx
        subst hs'
        simp [hq]
  · intro s' hps
    cases hq : s.queue with
    | nil =>
      simp only [popFront, hq, Prod.mk.injEq] at hps
      exact hps.2.symm
    | cons sl rest =>
      cases sl with
      | reserved b' =>
        simp only [popFront, hq, Prod.mk.injEq] at hps
        exact hps.2.symm
      | committed p r b' => simp [popFront, hq] at hps

/-- C2 witness: after one reliable arrival of batch 1 and one `receive`,
the delivered reliable batches are ascending. -/
theorem c2_receive_in_order_witness :
    RxReachable (popFront (recvRel rxInit 1 [7])).2
    ∧ ((popFront (recvRel rxInit 1 [7])).2).deliveredRel.Pairwise (· < ·) := by
  have h1 : RxReachable (recvRel rxInit 1 [7]) :=
    Relation.ReflTransGen.single (RxStep.rel rxInit 1 [7])
  have h2 : RxReachable (popFront (recvRel rxInit 1 [7])).2 :=
    h1.tail (RxStep.recv _)
  exact ⟨h2, (c2_receive_in_order _ h2).2.1⟩

end RcpSocket
